import Mathlib

/-!
# Verification of the ktDNS message codec and zone resolver

Shallow embedding of `ktDNS.py`.  Bytes are modelled as `Nat` (values
0..255 on the wire), byte strings as `List Nat`, Python `str` values that
participate in dictionary keys or numeric parsing as `String` / `List Char`.
Python operations that can raise (`int(s, 2)` on a non-binary string,
`n.to_bytes(k, 'big')` on an out-of-range value, a dictionary lookup of a
missing key, `ord` of an empty byte string) are modelled with `Option`:
`none` is the embedding of an uncaught Python exception.
-/

namespace KtDNS

/-- One DNS record as loaded from a zone file: `{'ttl': ..., 'value': ...}`. -/
structure Record where
  ttl : Nat
  value : String
deriving DecidableEq, Repr

/-- A zone is a JSON object; the record-type keys map to record lists
(the reserved string-valued key is irrelevant to every lookup performed).
The empty list models the empty dict `{}`. -/
abbrev ZoneData := List (String × List Record)

/-- The zone store: Python dict mapping origin name to zone, as an
association list keyed by the origin's character codes. -/
abbrev ZoneStore := List (List Nat × ZoneData)

/-- Embedding of Python `n.to_bytes(len, byteorder='big')` for `Nat`:
big-endian digits, failing (OverflowError) when `n` does not fit. -/
def beBytes : Nat → Nat → List Nat
  | 0, _ => []
  | k + 1, n => beBytes k (n / 256) ++ [n % 256]

def toBytesBE (k n : Nat) : Option (List Nat) :=
  if n < 256 ^ k then some (beBytes k n) else none

/-- Embedding of Python `int(s, 2)`: fails on an empty string or on any
character other than `0`/`1`. -/
def intBase2 (s : String) : Option Nat :=
  if s.isEmpty then none
  else
    s.data.foldlM
      (fun acc c =>
        if c = '0' then some (2 * acc)
        else if c = '1' then some (2 * acc + 1)
        else none)
      0

/-- `Handler.build_flags`.  The source builds the OPCODE part of a binary
string by concatenating `str(ord(byte1) & (1 << bit))` for bits 1..4 and
then parses `'1' + OPCODE + '1' + '0' + '0'` in base 2.  `none` models the
`ValueError`/`OverflowError`/`TypeError` paths. -/
def build_flags (flags : List Nat) : Option (List Nat) :=
  match flags with
  | [] => none
  | b1 :: _ =>
    let OPCODE : String :=
      toString (b1 &&& 2) ++ toString (b1 &&& 4) ++
      toString (b1 &&& 8) ++ toString (b1 &&& 16)
    match intBase2 ("1" ++ OPCODE ++ "1" ++ "0" ++ "0"),
          intBase2 ("0" ++ "000" ++ "0000") with
    | some v1, some v2 =>
      match toBytesBE 1 v1, toBytesBE 1 v2 with
      | some x1, some x2 => some (x1 ++ x2)
      | _, _ => none
    | _, _ => none

/-- The state machine of the `for byte in data` loop of
`Handler.get_domain_and_QTYPE`.  Arguments mirror the Python locals
`domain`, `domain_string`, `char_count`, `QNAME_length`, `is_appended`,
`expected_length`; the result is `(domain, QNAME_length)`.  The loop body
is written as a case split on `byte == 0` first; this is the same
computation as the source's sequence of three `if`s (a char is appended
only when `byte != 0`, the label is flushed when `char_count` reaches
`expected_length`, and `byte == 0` flushes the current string and breaks
without counting the byte). -/
def gdLoop : List Nat → List (List Nat) → List Nat → Nat → Nat → Bool → Nat →
    List (List Nat) × Nat
  | [], domain, _, _, ql, _, _ => (domain, ql)
  | b :: rest, domain, ds, cc, ql, isAp, exp =>
    if isAp then
      if b = 0 then
        if cc + 1 = exp then (domain ++ [ds] ++ [[]], ql)
        else (domain ++ [ds], ql)
      else
        if cc + 1 = exp then gdLoop rest (domain ++ [ds ++ [b]]) [] 0 (ql + 1) false exp
        else gdLoop rest domain (ds ++ [b]) (cc + 1) (ql + 1) true exp
    else
      gdLoop rest domain ds cc (ql + 1) true b

/-- `Handler.get_domain_and_QTYPE`: returns the decoded label list and
`data[QNAME_length : QNAME_length + 2]`. -/
def get_domain_and_QTYPE (data : List Nat) : List (List Nat) × List Nat :=
  let r := gdLoop data [] [] 0 0 false 0
  (r.1, (data.drop r.2).take 2)

/-- Python `'.'.join` on the decoded label list (labels as byte lists,
`46` is the code of the dot). -/
def joinDot : List (List Nat) → List Nat
  | [] => []
  | [l] => l
  | l :: l2 :: ls => l ++ 46 :: joinDot (l2 :: ls)

/-- `Zone.get_zone_by_domain`: dict lookup of the dot-joined domain;
the `except` clause turns a miss into the empty dict `{}`. -/
def get_zone_by_domain (zones : ZoneStore) (domain : List (List Nat)) : ZoneData :=
  let zone_name := joinDot domain
  match zones.find? (fun p => p.1 == zone_name) with
  | some p => p.2
  | none => []

/-- Python dict lookup `zone[qtype]`: `none` models the `KeyError`. -/
def zoneIndex (zone : ZoneData) (k : String) : Option (List Record) :=
  match zone.find? (fun p => p.1 == k) with
  | some p => some p.2
  | none => none

/-- `Handler.get_records`: decodes the question, maps QTYPE `b'\x00\x01'`
to the tag `"a"` (anything else leaves the tag `""`), fetches the zone and
indexes it with the tag.  `none` models the uncaught `KeyError`. -/
def get_records (data : List Nat) (zones : ZoneStore) :
    Option (List Record × String × List (List Nat) × String) :=
  let dq := get_domain_and_QTYPE data
  let qtype := if dq.2 = [0, 1] then "a" else ""
  let zone := get_zone_by_domain zones dq.1
  match zoneIndex zone qtype with
  | some recs => some (recs, qtype, dq.1, "IN")
  | none => none

/-- Embedding of Python `str.split('.')` on a character list. -/
def splitOnChar (sep : Char) : List Char → List (List Char)
  | [] => [[]]
  | c :: rest =>
    match splitOnChar sep rest with
    | [] => [[]]
    | part :: parts =>
      if c = sep then [] :: part :: parts else (c :: part) :: parts

/-- Digit-string accumulator for `pyInt`. -/
def digitsNatAux : List Char → Nat → Option Nat
  | [], acc => some acc
  | c :: rest, acc =>
    if c.isDigit then digitsNatAux rest (10 * acc + (c.toNat - 48)) else none

/-- Embedding of Python `int(s)` on a character list: an optional leading
minus sign followed by at least one decimal digit. -/
def pyInt (cs : List Char) : Option Int :=
  match cs with
  | [] => none
  | c :: rest =>
    if c = '-' then
      if rest.isEmpty then none
      else (digitsNatAux rest 0).map (fun n => -(n : Int))
    else (digitsNatAux cs 0).map (fun n => (n : Int))

/-- The `for part in record['value'].split('.')` loop of
`Handler.build_answers`: each part is parsed with `int` and emitted with
`.to_bytes(1, 'big')`, which fails outside 0..255. -/
def encodeOctets : List (List Char) → Option (List Nat)
  | [] => some []
  | p :: ps =>
    match pyInt p with
    | none => none
    | some n =>
      if 0 ≤ n ∧ n < 256 then
        match encodeOctets ps with
        | some rest => some (n.toNat :: rest)
        | none => none
      else none

/-- One iteration of the `for record in records` loop of
`Handler.build_answers`: pointer, TYPE/CLASS when recognized, TTL,
and for the address type RDLENGTH `[0, 4]` followed by the octets. -/
def answerBlock (record : Record) (qtype qclass : String) : Option (List Nat) :=
  let ptr : List Nat := [192, 12]
  let tp : List Nat := if qtype = "a" then [0, 1] else []
  let cls : List Nat := if qclass = "IN" then [0, 1] else []
  match toBytesBE 4 record.ttl with
  | none => none
  | some ttlB =>
    if qtype = "a" then
      match encodeOctets (splitOnChar '.' record.value.toList) with
      | some os => some (ptr ++ tp ++ cls ++ ttlB ++ [0, 4] ++ os)
      | none => none
    else some (ptr ++ tp ++ cls ++ ttlB)

/-- `Handler.build_answers`: concatenates one block per record. -/
def build_answers (records : List Record) (qtype qclass : String) :
    Option (List Nat) :=
  match records with
  | [] => some []
  | r :: rs =>
    match answerBlock r qtype qclass, build_answers rs qtype qclass with
    | some b, some rest => some (b ++ rest)
    | _, _ => none

/-- The name part of `Handler.build_queries`: each label is emitted as
`len(part).to_bytes(1)` followed by `ord(char).to_bytes(1)` per char,
both of which fail at 256 and above. -/
def buildQueriesName : List (List Nat) → Option (List Nat)
  | [] => some []
  | part :: parts =>
    if part.length < 256 ∧ ∀ c ∈ part, c < 256 then
      match buildQueriesName parts with
      | some rest => some ((part.length :: part) ++ rest)
      | none => none
    else none

/-- `Handler.build_queries`: the name part, the type part (only emitted
for the `"a"` tag), and the constant Internet class. -/
def build_queries (domain : List (List Nat)) (qtype : String) : Option (List Nat) :=
  match buildQueriesName domain with
  | some nm => some (nm ++ (if qtype = "a" then [0, 1] else []) ++ [0, 1])
  | none => none

/-- `Handler.build_header`: transaction id echoed from `data[:2]`, flags
rebuilt by `build_flags(data[2:4])`, then QDCOUNT/ANCOUNT/NSCOUNT/ARCOUNT. -/
def build_header (data : List Nat) (records : List Record) : Option (List Nat) :=
  let Transaction_ID := data.take 2
  match build_flags ((data.drop 2).take 2), toBytesBE 2 1,
        toBytesBE 2 records.length, toBytesBE 2 0, toBytesBE 2 0 with
  | some Flags, some QDCOUNT, some ANCOUNT, some NSCOUNT, some ARCOUNT =>
    some (Transaction_ID ++ Flags ++ QDCOUNT ++ ANCOUNT ++ NSCOUNT ++ ARCOUNT)
  | _, _, _, _, _ => none

/-! ## Wire-format ground truth used to quantify over inputs -/

/-- The label part of a wire-encoded question name: every label as one
length byte followed by its bytes. -/
def nameBody (ls : List (List Nat)) : List Nat :=
  (ls.map (fun l => l.length :: l)).flatten

/-- A valid wire-encoded question name: length-prefixed labels followed
by the zero terminator (RFC 1035 section 3.1). -/
def wireName (ls : List (List Nat)) : List Nat :=
  nameBody ls ++ [0]

/-- Well-formedness of a label list for the wire format: labels are
non-empty, at most 255 bytes long, and made of non-zero byte values. -/
def wfName (ls : List (List Nat)) : Prop :=
  ∀ l ∈ ls, l ≠ [] ∧ l.length ≤ 255 ∧ ∀ c ∈ l, 0 < c ∧ c ≤ 255

instance (ls : List (List Nat)) : Decidable (wfName ls) := by
  unfold wfName; infer_instance

/-- Reading a 2-byte field as a big-endian 16-bit integer. -/
def readBE16 : List Nat → Nat
  | [a, b] => 256 * a + b
  | _ => 0

/-- Character codes of a string, for writing zone-store keys. -/
def strBytes (s : String) : List Nat :=
  s.data.map Char.toNat

end KtDNS

namespace KtDNS

/-! ## Helper lemmas -/

lemma beBytes_length (k : Nat) : ∀ n, (beBytes k n).length = k := by
  induction k with
  | zero => intro n; rfl
  | succ k ih => intro n; simp [beBytes, ih]

lemma toBytesBE_eq_some {k n : Nat} {bs : List Nat} (h : toBytesBE k n = some bs) :
    n < 256 ^ k ∧ bs = beBytes k n := by
  unfold toBytesBE at h
  split at h
  · injection h with h
    exact ⟨by assumption, h.symm⟩
  · exact absurd h (by simp)

lemma readBE16_beBytes {n : Nat} (h : n < 65536) : readBE16 (beBytes 2 n) = n := by
  have h1 : beBytes 2 n = [n / 256 % 256, n % 256] := by
    simp [beBytes]
  rw [h1]
  simp only [readBE16]
  omega

lemma build_flags_length {f fl : List Nat} (h : build_flags f = some fl) :
    fl.length = 2 := by
  cases f with
  | nil => simp [build_flags] at h
  | cons b1 t =>
    simp only [build_flags] at h
    split at h
    next v1 v2 hv1 hv2 =>
      split at h
      next x1 x2 hx1 hx2 =>
        injection h with h
        rw [(toBytesBE_eq_some hx1).2, (toBytesBE_eq_some hx2).2] at h
        rw [h.symm]
        simp [beBytes_length]
      next => exact absurd h (by simp)
    next => exact absurd h (by simp)

end KtDNS

namespace KtDNS

/-- One-step unfolding lemmas for `gdLoop`. -/
lemma gdLoop_cons_false (b : Nat) (rest : List Nat) (domain : List (List Nat))
    (ds : List Nat) (cc ql exp : Nat) :
    gdLoop (b :: rest) domain ds cc ql false exp =
      gdLoop rest domain ds cc (ql + 1) true b := by
  simp [gdLoop]

lemma gdLoop_cons_true_ne (b : Nat) (rest : List Nat) (domain : List (List Nat))
    (ds : List Nat) (cc ql exp : Nat) (hb : b ≠ 0) (hcc : cc + 1 ≠ exp) :
    gdLoop (b :: rest) domain ds cc ql true exp =
      gdLoop rest domain (ds ++ [b]) (cc + 1) (ql + 1) true exp := by
  simp [gdLoop, hb, hcc]

lemma gdLoop_cons_true_eq (b : Nat) (rest : List Nat) (domain : List (List Nat))
    (ds : List Nat) (cc ql exp : Nat) (hb : b ≠ 0) (hcc : cc + 1 = exp) :
    gdLoop (b :: rest) domain ds cc ql true exp =
      gdLoop rest (domain ++ [ds ++ [b]]) [] 0 (ql + 1) false exp := by
  simp [gdLoop, hb, hcc]

lemma gdLoop_zero_break (rest : List Nat) (domain : List (List Nat))
    (ds : List Nat) (cc ql exp : Nat) (hcc : cc + 1 ≠ exp) :
    gdLoop (0 :: rest) domain ds cc ql true exp = (domain ++ [ds], ql) := by
  simp [gdLoop, hcc]

/-- Consuming the characters of one label: from the state right after the
length byte was read, the loop flushes the label and advances
`QNAME_length` by the label's length. -/
lemma gdLoop_label (l : List Nat) : ∀ (rem : List Nat) (domain : List (List Nat))
    (ds : List Nat) (cc ql exp : Nat),
    (∀ c ∈ l, c ≠ 0) → l ≠ [] → cc + l.length = exp →
    gdLoop (l ++ rem) domain ds cc ql true exp =
      gdLoop rem (domain ++ [ds ++ l]) [] 0 (ql + l.length) false exp := by
  induction l with
  | nil => intro _ _ _ _ _ _ _ hne _; exact absurd rfl hne
  | cons c t ih =>
    intro rem domain ds cc ql exp hc hne hlen
    have hc0 : c ≠ 0 := hc c (by simp)
    cases t with
    | nil =>
      have hcc : cc + 1 = exp := by simpa using hlen
      rw [List.cons_append, List.nil_append,
        gdLoop_cons_true_eq c rem domain ds cc ql exp hc0 hcc]
      simp
    | cons c2 t2 =>
      have hcc : ¬ (cc + 1 = exp) := by
        simp only [List.length_cons] at hlen
        omega
      rw [List.cons_append,
        gdLoop_cons_true_ne c ((c2 :: t2) ++ rem) domain ds cc ql exp hc0 hcc]
      rw [ih rem domain (ds ++ [c]) (cc + 1) (ql + 1) exp
        (fun x hx => hc x (by simp [hx])) (by simp)
        (by simp only [List.length_cons] at hlen ⊢; omega)]
      have h1 : ds ++ [c] ++ (c2 :: t2) = ds ++ c :: c2 :: t2 := by simp
      have h2 : ql + 1 + (c2 :: t2).length = ql + (c :: c2 :: t2).length := by
        simp only [List.length_cons]; omega
      rw [h1, h2]

/-- Consuming a whole wire-format name whose terminator is followed by a
zero byte (the high byte of every QTYPE this server recognizes): the loop
emits the labels plus a final empty label and counts exactly the bytes of
the name, the terminator included. -/
lemma gdLoop_name : ∀ (ls : List (List Nat)) (rest : List Nat)
    (domain : List (List Nat)) (ql e : Nat),
    (∀ l ∈ ls, l ≠ [] ∧ ∀ c ∈ l, c ≠ 0) →
    gdLoop (nameBody ls ++ 0 :: 0 :: rest) domain [] 0 ql false e =
      (domain ++ ls ++ [[]], ql + (nameBody ls).length + 1) := by
  intro ls
  induction ls with
  | nil =>
    intro rest domain ql e _
    rw [show nameBody [] ++ 0 :: 0 :: rest = 0 :: 0 :: rest by simp [nameBody]]
    rw [gdLoop_cons_false, gdLoop_zero_break _ _ _ _ _ _ (by omega)]
    simp [nameBody]
  | cons l tl ih =>
    intro rest domain ql e h
    have hl := h l (by simp)
    have hbody : nameBody (l :: tl) ++ 0 :: 0 :: rest =
        l.length :: (l ++ (nameBody tl ++ 0 :: 0 :: rest)) := by
      simp [nameBody]
    rw [hbody, gdLoop_cons_false]
    rw [gdLoop_label l (nameBody tl ++ 0 :: 0 :: rest) domain [] 0 (ql + 1) l.length
      hl.2 hl.1 (by omega)]
    rw [List.nil_append]
    rw [ih rest (domain ++ [l]) (ql + 1 + l.length) l.length
      (fun x hx => h x (by simp [hx]))]
    refine Prod.ext ?_ ?_
    · simp
    · show ql + 1 + l.length + (nameBody tl).length + 1 =
        ql + (nameBody (l :: tl)).length + 1
      simp only [nameBody, List.map_cons, List.flatten_cons, List.length_append,
        List.length_cons]
      omega

end KtDNS

namespace KtDNS

/-- Decoding a well-formed question section: the decoder returns the
labels followed by one empty label, and reads the QTYPE from the two
bytes right after the name. -/
lemma decode_wireName (ls : List (List Nat)) (q2 : Nat) (rest : List Nat)
    (h : ∀ l ∈ ls, l ≠ [] ∧ ∀ c ∈ l, c ≠ 0) :
    get_domain_and_QTYPE (wireName ls ++ 0 :: q2 :: rest) = (ls ++ [[]], [0, q2]) := by
  have hdata : wireName ls ++ 0 :: q2 :: rest = nameBody ls ++ 0 :: 0 :: q2 :: rest := by
    simp [wireName]
  unfold get_domain_and_QTYPE
  rw [hdata, gdLoop_name ls (q2 :: rest) [] 0 0 h]
  have hdrop : (nameBody ls ++ 0 :: 0 :: q2 :: rest).drop (0 + (nameBody ls).length + 1) =
      0 :: q2 :: rest := by
    rw [show nameBody ls ++ 0 :: 0 :: q2 :: rest =
      (nameBody ls ++ [0]) ++ 0 :: q2 :: rest by simp]
    rw [show 0 + (nameBody ls).length + 1 = (nameBody ls ++ [0]).length by simp]
    exact List.drop_left _ _
  simp [hdrop]

/-- Well-formedness gives the hypotheses the decoder lemmas need. -/
lemma wfName_weaken {ls : List (List Nat)} (h : wfName ls) :
    ∀ l ∈ ls, l ≠ [] ∧ ∀ c ∈ l, c ≠ 0 := by
  intro l hl
  obtain ⟨h1, _, h3⟩ := h l hl
  exact ⟨h1, fun c hc => Nat.pos_iff_ne_zero.mp (h3 c hc).1⟩

/-- Re-encoding the decoded label list (labels plus the trailing empty
label) with the name part of `build_queries` reproduces the wire name,
the zero terminator included. -/
lemma buildQueriesName_append_empty {ls : List (List Nat)} (h : wfName ls) :
    buildQueriesName (ls ++ [[]]) = some (wireName ls) := by
  induction ls with
  | nil => simp [buildQueriesName, wireName, nameBody]
  | cons l tl ih =>
    have hl := h l (by simp)
    have htl : wfName tl := fun x hx => h x (by simp [hx])
    rw [List.cons_append]
    show (if l.length < 256 ∧ ∀ c ∈ l, c < 256 then
      match buildQueriesName (tl ++ [[]]) with
      | some rest => some ((l.length :: l) ++ rest)
      | none => none
      else none) = some (wireName (l :: tl))
    rw [if_pos ⟨by omega, fun c hc => by have := (hl.2.2 c hc).2; omega⟩]
    rw [ih htl]
    show some ((l.length :: l) ++ wireName tl) = some (wireName (l :: tl))
    simp [wireName, nameBody]

/-- Appending the empty label to a non-empty label list appends a dot to
the dot-joined key. -/
lemma joinDot_append_empty : ∀ ls : List (List Nat), ls ≠ [] →
    joinDot (ls ++ [[]]) = joinDot ls ++ [46] := by
  intro ls
  induction ls with
  | nil => intro hne; exact absurd rfl hne
  | cons l tl ih =>
    intro _
    cases tl with
    | nil => simp [joinDot]
    | cons l2 t2 =>
      have h2 := ih (by simp)
      rw [List.cons_append]
      show l ++ 46 :: joinDot ((l2 :: t2) ++ [[]]) = (l ++ 46 :: joinDot (l2 :: t2)) ++ [46]
      rw [h2]
      simp

end KtDNS

namespace KtDNS

/-- For the address type and the Internet class the literal string tests
of `answerBlock` reduce, leaving the wire layout of one answer block. -/
lemma answerBlock_a_IN (r : Record) :
    answerBlock r "a" "IN" =
      match toBytesBE 4 r.ttl with
      | none => none
      | some ttlB =>
        match encodeOctets (splitOnChar '.' r.value.toList) with
        | some os => some ([192, 12] ++ [0, 1] ++ [0, 1] ++ ttlB ++ [0, 4] ++ os)
        | none => none := rfl

/-- Every successfully encoded address-type answer block starts with the
compression pointer bytes `0xC0 0x0C`. -/
lemma answerBlock_take_two {r : Record} {b : List Nat}
    (h : answerBlock r "a" "IN" = some b) : b.take 2 = [192, 12] := by
  rw [answerBlock_a_IN] at h
  rcases htb : toBytesBE 4 r.ttl with _ | ttlB
  · rw [htb] at h; exact absurd h (by simp)
  · rw [htb] at h
    rcases hoc : encodeOctets (splitOnChar '.' r.value.toList) with _ | os
    · rw [hoc] at h; exact absurd h (by simp)
    · rw [hoc] at h
      injection h with h
      rw [h.symm]
      rfl

/-- The answer section is the concatenation of one block per record, each
block opening with the compression pointer. -/
lemma build_answers_blocks : ∀ (records : List Record) (a : List Nat),
    build_answers records "a" "IN" = some a →
    ∃ blocks : List (List Nat), a = blocks.flatten ∧
      blocks.length = records.length ∧ ∀ b ∈ blocks, b.take 2 = [192, 12] := by
  intro records
  induction records with
  | nil =>
    intro a h
    refine ⟨[], ?_, by simp, by simp⟩
    simp [build_answers] at h
    simp [h.symm]
  | cons r rs ih =>
    intro a h
    simp only [build_answers] at h
    split at h
    next b restBytes hb hrest =>
      injection h with h
      obtain ⟨blocks, hfl, hlen, hptr⟩ := ih restBytes hrest
      refine ⟨b :: blocks, ?_, by simp [hlen], ?_⟩
      · rw [h.symm, hfl]
        simp
      · intro x hx
        rcases List.mem_cons.mp hx with hx | hx
        · rw [hx]; exact answerBlock_take_two hb
        · exact hptr x hx
    next => exact absurd h (by simp)

/-- If some dotted-quad part parses to a value outside 0..255, the octet
encoder fails. -/
lemma encodeOctets_out_of_range : ∀ (parts : List (List Char)) (p : List Char) (n : Int),
    p ∈ parts → pyInt p = some n → (n < 0 ∨ 255 < n) → encodeOctets parts = none := by
  intro parts
  induction parts with
  | nil => intro p n hp _ _; exact absurd hp (by simp)
  | cons q qs ih =>
    intro p n hp hn hout
    rcases List.mem_cons.mp hp with hq | hq
    · subst hq
      simp only [encodeOctets, hn]
      rw [if_neg (by omega)]
    · simp only [encodeOctets]
      split
      · rfl
      · split
        · rw [ih p n hq hn hout]
        · rfl

/-- Destructuring a successful `build_header`: the fixed layout of the
12-byte header. -/
lemma build_header_eq_some {data : List Nat} {records : List Record} {h : List Nat}
    (hh : build_header data records = some h) :
    ∃ fl : List Nat, build_flags ((data.drop 2).take 2) = some fl ∧
      records.length < 65536 ∧
      h = data.take 2 ++ fl ++ [0, 1] ++ beBytes 2 records.length ++ [0, 0] ++ [0, 0] := by
  unfold build_header at hh
  split at hh
  next fl qd an ns ar hfl hqd han hns har =>
    injection hh with hh
    obtain ⟨hanlt, haneq⟩ := toBytesBE_eq_some han
    refine ⟨fl, hfl, by omega, ?_⟩
    rw [hh.symm, haneq]
    have hqd2 : qd = [0, 1] := by
      have := (toBytesBE_eq_some hqd).2
      simpa [beBytes] using this
    have hns2 : ns = [0, 0] := by
      have := (toBytesBE_eq_some hns).2
      simpa [beBytes] using this
    have har2 : ar = [0, 0] := by
      have := (toBytesBE_eq_some har).2
      simpa [beBytes] using this
    rw [hqd2, hns2, har2]
  next => exact absurd hh (by simp)

end KtDNS

namespace KtDNS

/-- Claim C1.  Evaluating the code on a query for `nope.` against a store
holding only the origin `example.com.`: `get_zone_by_domain` yields the
empty dict `{}` (there is no explicit no-such-zone outcome), after which
`get_records` raises `KeyError` on `zone['a']` (modelled by `none`), so no
ANCOUNT=0 response is ever built for a name absent from the store. -/
theorem claim_C1_zone_miss :
    get_zone_by_domain [(strBytes "example.com.", [("a", [⟨60, "10.0.0.1"⟩])])]
        ((get_domain_and_QTYPE [4, 110, 111, 112, 101, 0, 0, 1, 0, 1]).1) = [] ∧
    get_records [4, 110, 111, 112, 101, 0, 0, 1, 0, 1]
        [(strBytes "example.com.", [("a", [⟨60, "10.0.0.1"⟩])])] = none := by
  decide

/-- Claim C2.  For query flags with opcode 1 (`byte1 = 0x08`) the flag
builder raises `ValueError` (the OPCODE string holds the decimal digit 8,
which `int(s, 2)` rejects) instead of returning `0x8C 0x00`; for opcode 4
(`byte1 = 0x20`) it silently returns `0x84 0x00` instead of the claimed
`0xA4 0x00`, because the source inspects bits 1..4 rather than the opcode
bits 3..6. -/
theorem claim_C2_flags_opcode :
    build_flags [8, 0] = none ∧ build_flags [32, 0] = some [132, 0] := by
  decide

/-- Claim C3.  Round-trip of the question name: decoding a valid
wire-encoded name (followed by the address QTYPE) and re-encoding the
resulting label list with the question encoder's name part reproduces the
original name bytes exactly, the zero terminator included (the decoder's
trailing empty label re-encodes as the terminator byte). -/
theorem claim_C3_name_roundtrip (ls : List (List Nat)) (rest : List Nat)
    (h : wfName ls) :
    buildQueriesName (get_domain_and_QTYPE (wireName ls ++ 0 :: 1 :: rest)).1 =
      some (wireName ls) := by
  rw [decode_wireName ls 1 rest (wfName_weaken h)]
  show buildQueriesName (ls ++ [[]]) = some (wireName ls)
  exact buildQueriesName_append_empty h

theorem claim_C3_name_roundtrip_witness :
    wfName [[119, 119, 119]] ∧
    buildQueriesName
        (get_domain_and_QTYPE (wireName [[119, 119, 119]] ++ 0 :: 1 :: [0, 1])).1 =
      some (wireName [[119, 119, 119]]) :=
  ⟨by decide, claim_C3_name_roundtrip [[119, 119, 119]] [0, 1] (by decide)⟩

/-- Claim C4.  Evaluating the decoder on a buffer truncated mid-label
(length byte 3 followed by only two bytes): it returns a normal result —
an empty label list and an empty QTYPE slice — with no error signal of
any kind, rather than the MalformedQuery outcome the claim requires. -/
theorem claim_C4_truncated_decode :
    get_domain_and_QTYPE [3, 119, 119] = ([], []) := by
  decide

/-- Claim C5.  Evaluating the resolver on a query for `example.com.` with
QTYPE 2 against a store that holds that very zone: the unrecognized QTYPE
leaves the type tag as the empty string and `zone['']` raises `KeyError`
(modelled by `none`) instead of returning an empty record list; the same
query with QTYPE 1 succeeds, isolating the QTYPE as the cause. -/
theorem claim_C5_unsupported_qtype :
    get_records [7, 101, 120, 97, 109, 112, 108, 101, 3, 99, 111, 109, 0, 0, 2, 0, 1]
        [(strBytes "example.com.", [("a", [⟨60, "10.0.0.1"⟩])])] = none ∧
    get_records [7, 101, 120, 97, 109, 112, 108, 101, 3, 99, 111, 109, 0, 0, 1, 0, 1]
        [(strBytes "example.com.", [("a", [⟨60, "10.0.0.1"⟩])])] =
      some ([⟨60, "10.0.0.1"⟩], "a",
        [[101, 120, 97, 109, 112, 108, 101], [99, 111, 109], []], "IN") := by
  refine ⟨by decide, by rfl⟩

/-- Claim C6.  Whenever the header and the answer section are both built
successfully, the QDCOUNT field reads as exactly 1 and the ANCOUNT field,
read as a 16-bit big-endian integer, equals the number of answer blocks
the answer encoder appended for the same record list. -/
theorem claim_C6_header_counts (data : List Nat) (records : List Record)
    (h a : List Nat) (hd : 2 ≤ data.length)
    (hh : build_header data records = some h)
    (ha : build_answers records "a" "IN" = some a) :
    readBE16 ((h.drop 4).take 2) = 1 ∧
    ∃ blocks : List (List Nat), a = blocks.flatten ∧
      blocks.length = records.length ∧
      (∀ b ∈ blocks, b.take 2 = [192, 12]) ∧
      readBE16 ((h.drop 6).take 2) = blocks.length := by
  obtain ⟨fl, hfl, hlt, heq⟩ := build_header_eq_some hh
  obtain ⟨blocks, hbl, hlen, hptr⟩ := build_answers_blocks records a ha
  have htid : (data.take 2).length = 2 := by
    rw [List.length_take]
    omega
  have hfl2 : fl.length = 2 := build_flags_length hfl
  obtain ⟨t0, t1, ht⟩ := List.length_eq_two.mp htid
  obtain ⟨f0, f1, hf⟩ := List.length_eq_two.mp hfl2
  have hbe : beBytes 2 records.length =
      [records.length / 256 % 256, records.length % 256] := by
    simp [beBytes]
  rw [ht, hf, hbe] at heq
  subst heq
  constructor
  · simp [readBE16]
  · refine ⟨blocks, hbl, hlen, hptr, ?_⟩
    have hred : readBE16 [records.length / 256 % 256, records.length % 256] =
        records.length := by
      simp only [readBE16]
      omega
    simp only [List.cons_append, List.nil_append, List.drop_succ_cons,
      List.drop_zero, List.take_succ_cons, List.take_zero]
    rw [hred]
    exact hlen.symm

theorem claim_C6_header_counts_witness :
    readBE16 ((([0, 0, 132, 0, 0, 1, 0, 1, 0, 0, 0, 0] : List Nat).drop 4).take 2) = 1 ∧
    ∃ blocks : List (List Nat),
      [192, 12, 0, 1, 0, 1, 0, 0, 0, 60, 0, 4, 10, 0, 0, 1] = blocks.flatten ∧
      blocks.length = [Record.mk 60 "10.0.0.1"].length ∧
      (∀ b ∈ blocks, b.take 2 = [192, 12]) ∧
      readBE16 ((([0, 0, 132, 0, 0, 1, 0, 1, 0, 0, 0, 0] : List Nat).drop 6).take 2) =
        blocks.length :=
  claim_C6_header_counts [0, 0, 0, 0] [⟨60, "10.0.0.1"⟩]
    [0, 0, 132, 0, 0, 1, 0, 1, 0, 0, 0, 0]
    [192, 12, 0, 1, 0, 1, 0, 0, 0, 60, 0, 4, 10, 0, 0, 1]
    (by decide) (by decide) (by decide)

end KtDNS

namespace KtDNS

/-- Claim C7.  Decoding a well-formed address-type question for a
non-empty name yields a label list ending in the empty string, its
dot-joined lookup key carries a trailing dot, and consequently a zone
store none of whose origin keys end in a dot can never produce a hit:
the lookup falls back to the empty dict. -/
theorem claim_C7_trailing_dot (ls : List (List Nat)) (rest : List Nat)
    (h : wfName ls) (hne : ls ≠ []) :
    ((get_domain_and_QTYPE (wireName ls ++ 0 :: 1 :: rest)).1).getLast? = some [] ∧
    joinDot (get_domain_and_QTYPE (wireName ls ++ 0 :: 1 :: rest)).1 =
      joinDot ls ++ [46] ∧
    ∀ zones : ZoneStore, (∀ p ∈ zones, p.1.getLast? ≠ some 46) →
      get_zone_by_domain zones (get_domain_and_QTYPE (wireName ls ++ 0 :: 1 :: rest)).1 = [] := by
  rw [decode_wireName ls 1 rest (wfName_weaken h)]
  refine ⟨?_, ?_, ?_⟩
  · show (ls ++ [[]]).getLast? = some []
    simp
  · show joinDot (ls ++ [[]]) = joinDot ls ++ [46]
    exact joinDot_append_empty ls hne
  · intro zones hz
    show get_zone_by_domain zones (ls ++ [[]]) = []
    unfold get_zone_by_domain
    rw [joinDot_append_empty ls hne]
    have hfind : List.find? (fun p => p.1 == joinDot ls ++ [46]) zones = none := by
      rw [List.find?_eq_none]
      intro p hp
      simp only [beq_iff_eq]
      intro hcontra
      apply hz p hp
      rw [hcontra]
      simp
    show (match List.find? (fun p => p.1 == joinDot ls ++ [46]) zones with
          | some p => p.2
          | none => []) = []
    rw [hfind]

theorem claim_C7_trailing_dot_witness :
    wfName [[110]] ∧ ([[110]] : List (List Nat)) ≠ [] ∧
    (((get_domain_and_QTYPE (wireName [[110]] ++ 0 :: 1 :: [0, 1])).1).getLast? = some [] ∧
     joinDot (get_domain_and_QTYPE (wireName [[110]] ++ 0 :: 1 :: [0, 1])).1 =
       joinDot [[110]] ++ [46] ∧
     ∀ zones : ZoneStore, (∀ p ∈ zones, p.1.getLast? ≠ some 46) →
       get_zone_by_domain zones
         (get_domain_and_QTYPE (wireName [[110]] ++ 0 :: 1 :: [0, 1])).1 = []) :=
  ⟨by decide, by decide, claim_C7_trailing_dot [[110]] [0, 1] (by decide) (by decide)⟩

/-- Claim C7, counterexample to the unrestricted statement.  The root
query (zero labels: the name is the single zero byte, a well-formed
question) decodes to the label list containing one empty string, whose
dot-joined key is the empty string — it does not end in a trailing dot —
and a zone origin written without a trailing dot (the empty origin) does
match it. -/
theorem claim_C7_root_query_no_dot :
    (get_domain_and_QTYPE (wireName [] ++ 0 :: 1 :: [0, 1])).1 = [[]] ∧
    joinDot (get_domain_and_QTYPE (wireName [] ++ 0 :: 1 :: [0, 1])).1 = [] ∧
    (joinDot (get_domain_and_QTYPE (wireName [] ++ 0 :: 1 :: [0, 1])).1).getLast? ≠
      some 46 ∧
    get_zone_by_domain [([], [("a", [⟨60, "10.0.0.1"⟩])])]
        (get_domain_and_QTYPE (wireName [] ++ 0 :: 1 :: [0, 1])).1 =
      [("a", [⟨60, "10.0.0.1"⟩])] := by
  decide

/-- Claim C8.  A successfully encoded answer section is the concatenation
of one block per record, and every such block begins with the two
owner-name bytes `0xC0 0x0C`, the compression pointer to offset 12. -/
theorem claim_C8_compression_pointer (records : List Record) (a : List Nat)
    (h : build_answers records "a" "IN" = some a) :
    ∃ blocks : List (List Nat), a = blocks.flatten ∧
      blocks.length = records.length ∧ ∀ b ∈ blocks, b.take 2 = [192, 12] :=
  build_answers_blocks records a h

theorem claim_C8_compression_pointer_witness :
    ∃ blocks : List (List Nat),
      ([192, 12, 0, 1, 0, 1, 0, 0, 0, 60, 0, 4, 10, 0, 0, 1] : List Nat) =
        blocks.flatten ∧
      blocks.length = [Record.mk 60 "10.0.0.1"].length ∧
      ∀ b ∈ blocks, b.take 2 = [192, 12] :=
  claim_C8_compression_pointer [⟨60, "10.0.0.1"⟩]
    [192, 12, 0, 1, 0, 1, 0, 0, 0, 60, 0, 4, 10, 0, 0, 1] (by decide)

/-- Claim C9.  The address record with ttl 300 and value 93.184.216.34
encodes to an answer block whose TTL field is `00 00 01 2C`, whose
RDLENGTH field is `00 04` and whose RDATA field is `5D B8 D8 22`, all
big-endian. -/
theorem claim_C9_record_encoding :
    (answerBlock ⟨300, "93.184.216.34"⟩ "a" "IN").map
        (fun b => ((b.drop 6).take 4, (b.drop 10).take 2, b.drop 12)) =
      some ([0, 0, 1, 44], [0, 4], [93, 184, 216, 34]) := by
  decide

/-- Claim C10.  If any dotted-quad part of an address record's value
parses to an integer outside 0..255, encoding the answer block fails
(`int(part).to_bytes(1, 'big')` raises OverflowError, modelled by `none`)
instead of silently truncating the octet. -/
theorem claim_C10_octet_range (rec : Record) (p : List Char) (n : Int)
    (hp : p ∈ splitOnChar '.' rec.value.toList) (hn : pyInt p = some n)
    (hout : n < 0 ∨ 255 < n) :
    answerBlock rec "a" "IN" = none := by
  rw [answerBlock_a_IN]
  rcases htb : toBytesBE 4 rec.ttl with _ | ttlB
  · rfl
  · show (match encodeOctets (splitOnChar '.' rec.value.toList) with
          | some os => some ([192, 12] ++ [0, 1] ++ [0, 1] ++ ttlB ++ [0, 4] ++ os)
          | none => none) = none
    rw [encodeOctets_out_of_range (splitOnChar '.' rec.value.toList) p n hp hn hout]

theorem claim_C10_octet_range_witness :
    (String.toList "256") ∈
      splitOnChar '.' (Record.mk 300 "1.2.3.256").value.toList ∧
    pyInt (String.toList "256") = some 256 ∧
    ((256 : Int) < 0 ∨ 255 < (256 : Int)) ∧
    answerBlock ⟨300, "1.2.3.256"⟩ "a" "IN" = none :=
  ⟨by decide, by decide, by decide,
    claim_C10_octet_range ⟨300, "1.2.3.256"⟩ (String.toList "256") 256
      (by decide) (by decide) (by decide)⟩

end KtDNS
